import Mathlib

/-!
Verification development for the "degrees of separation" program
(`degrees.py`): an in-memory filmography record store loaded from CSV rows,
a name index, a neighbor expander, and a breadth-first shortest-path search
over the co-starring graph.

Python dictionaries are embedded as association lists (first-match lookup,
assignment replaces in place or appends), Python sets as duplicate-free
lists whose order stands for one concrete iteration order of the underlying
unordered collection, and `None` as `Option.none`.  Interactive input read
by `person_id_for_name` is passed in as an explicit `response` argument.
The `QueueFrontier` class lives in `util.py`, which is not part of these
sources; it is modelled from the spec as a FIFO queue (add appends, remove
pops the front).
-/

namespace Degrees

/-- First-match lookup in an association list: the embedding of Python
dictionary indexing `d[k]` / `k in d` (`none` stands for a missing key). -/
def dlookup {α β : Type} [DecidableEq α] : List (α × β) → α → Option β
  | [], _ => none
  | (k, v) :: rest, key => if key = k then some v else dlookup rest key

/-- Python dictionary assignment `d[k] = v`: replace the value in place when
the key is present, otherwise append the new binding. -/
def dictInsert {α β : Type} [DecidableEq α] (d : List (α × β)) (k : α) (v : β) :
    List (α × β) :=
  if (dlookup d k).isSome then
    d.map (fun e => if e.1 = k then (k, v) else e)
  else
    d ++ [(k, v)]

/-- Python `s.add(x)` on a set, with the list order standing for the
iteration order: a no-op when the element is present, else appended. -/
def setAdd {α : Type} [DecidableEq α] (s : List α) (x : α) : List α :=
  if x ∈ s then s else s ++ [x]

/-- Python `name.lower()`, applied character-wise to the underlying
character list (identical to `String.toLower`, but written so the kernel
can evaluate it). -/
def strToLower (s : String) : String :=
  ⟨s.data.map Char.toLower⟩

/-- A value of the `people` table: name, birth, and the set of movie ids the
person appeared in (`people[id] = {"name": ..., "birth": ..., "movies": set()}`). -/
structure Person where
  name : String
  birth : String
  movies : List String
  deriving DecidableEq

/-- A value of the `movies` table: title, year, and the set of person ids
starring in it (`movies[id] = {"title": ..., "year": ..., "stars": set()}`). -/
structure Movie where
  title : String
  year : String
  stars : List String
  deriving DecidableEq

/-- The Record Store: the module-level `people`, `movies` and `names`
dictionaries of `degrees.py`. -/
structure RecordStore where
  people : List (String × Person)
  movies : List (String × Movie)
  names : List (String × List String)
  deriving DecidableEq

/-- The store before any loading: all three dictionaries empty. -/
def emptyStore : RecordStore := ⟨[], [], []⟩

/-- One row of `people.csv` (id, name, birth) processed by `load_data`:
insert the person with an empty movie set and index the lower-cased name. -/
def loadPersonRow (store : RecordStore) (row : String × String × String) :
    RecordStore :=
  let pid := row.1
  let nm := row.2.1
  let birth := row.2.2
  let people2 := dictInsert store.people pid ⟨nm, birth, []⟩
  let nlow := strToLower nm
  let names2 :=
    match dlookup store.names nlow with
    | none => dictInsert store.names nlow [pid]
    | some s => dictInsert store.names nlow (setAdd s pid)
  ⟨people2, store.movies, names2⟩

/-- The people-loading loop of `load_data`. -/
def load_people (store : RecordStore) (rows : List (String × String × String)) :
    RecordStore :=
  rows.foldl loadPersonRow store

/-- One row of `movies.csv` (id, title, year): insert the movie with an
empty star set. -/
def loadMovieRow (store : RecordStore) (row : String × String × String) :
    RecordStore :=
  ⟨store.people, dictInsert store.movies row.1 ⟨row.2.1, row.2.2, []⟩, store.names⟩

/-- The movie-loading loop of `load_data`. -/
def load_movies (store : RecordStore) (rows : List (String × String × String)) :
    RecordStore :=
  rows.foldl loadMovieRow store

/-- Add `mid` to the movie set of person `pid`
(`people[person_id]["movies"].add(movie_id)`). -/
def addMovieToPerson (ps : List (String × Person)) (pid mid : String) :
    List (String × Person) :=
  ps.map fun e =>
    if e.1 = pid then (e.1, ⟨e.2.name, e.2.birth, setAdd e.2.movies mid⟩) else e

/-- Add `pid` to the star set of movie `mid`
(`movies[movie_id]["stars"].add(person_id)`). -/
def addStarToMovie (ms : List (String × Movie)) (mid pid : String) :
    List (String × Movie) :=
  ms.map fun e =>
    if e.1 = mid then (e.1, ⟨e.2.title, e.2.year, setAdd e.2.stars pid⟩) else e

/-- One row of `stars.csv` (person_id, movie_id): recorded on both sides when
both identifiers are known (`if person_id in people and movie_id in movies`),
otherwise the row is dropped and the store is unchanged. -/
def loadStarRow (store : RecordStore) (row : String × String) : RecordStore :=
  if (dlookup store.people row.1).isSome && (dlookup store.movies row.2).isSome then
    ⟨addMovieToPerson store.people row.1 row.2,
     addStarToMovie store.movies row.2 row.1,
     store.names⟩
  else
    store

/-- The star-loading loop of `load_data`. -/
def load_stars (store : RecordStore) (rows : List (String × String)) : RecordStore :=
  rows.foldl loadStarRow store

/-- The whole of `load_data`: people rows, then movie rows, then star rows,
starting from the empty module-level dictionaries. -/
def load_data (peopleRows movieRows : List (String × String × String))
    (starRows : List (String × String)) : RecordStore :=
  load_stars (load_movies (load_people emptyStore peopleRows) movieRows) starRows

/-- `person_id_for_name`: look up the lower-cased name; `none` for zero
matches; for a unique match return it; for several matches the program
prints the candidates and reads an id interactively — the read line is the
`response` argument — returning it when it is among the candidates and
`none` otherwise. -/
def person_id_for_name (store : RecordStore) (nm : String) (response : String) :
    Option String :=
  let person_ids := (dlookup store.names (strToLower nm)).getD []
  if person_ids.length = 0 then none
  else if 1 < person_ids.length then
    if response ∈ person_ids then some response else none
  else person_ids.head?

/-- Inner loops of `neighbors_for_person`: walk the person's movie list, and
for each movie add every co-star other than the person to the accumulated
set; `none` embeds the `KeyError` raised when a movie id is missing. -/
def neighborsAux (store : RecordStore) (pid : String) :
    List String → List (String × String) → Option (List (String × String))
  | [], acc => some acc
  | mid :: rest, acc =>
    match dlookup store.movies mid with
    | none => none
    | some mv =>
      neighborsAux store pid rest
        (mv.stars.foldl
          (fun a nid => if nid = pid then a else setAdd a (mid, nid)) acc)

/-- `neighbors_for_person`: the (movie_id, person_id) pairs of co-stars of
`pid`; `none` embeds the `KeyError` raised on an unknown person id. -/
def neighbors_for_person (store : RecordStore) (pid : String) :
    Option (List (String × String)) :=
  match dlookup store.people pid with
  | none => none
  | some person => neighborsAux store pid person.movies []

/-- Outcome of the search loop: `found` is a returned path, `exhausted` is
the `return None` after the frontier empties, `keyError` is the exception a
missing identifier would raise. -/
inductive SearchResult where
  | found : List (Option String × String) → SearchResult
  | exhausted : SearchResult
  | keyError : SearchResult
  deriving DecidableEq

/-- The neighbor-expansion loop of `shortest_path`: for each (movie, person)
pair not yet explored, enqueue it, mark it explored, and record
`came_from[(movie_id, neighbor_id)] = (movie_id, person_id)` — faithfully
including the rebinding of `movie_id` by the `for` loop, so the stored
predecessor pair carries the new edge's movie, not the movie by which the
current person was reached. -/
def expand (pid : String) :
    List (String × String) → List (Option String × String) → List String →
    List ((Option String × String) × (Option String × String)) →
    List (Option String × String) × List String ×
      List ((Option String × String) × (Option String × String))
  | [], frontier, explored, cameFrom => (frontier, explored, cameFrom)
  | (mid, nid) :: rest, frontier, explored, cameFrom =>
    if nid ∈ explored then
      expand pid rest frontier explored cameFrom
    else
      expand pid rest (frontier ++ [(some mid, nid)]) (explored ++ [nid])
        (cameFrom ++ [((some mid, nid), (some mid, pid))])

/-- The path-reconstruction loop of `shortest_path`: while the current pair
is a key of `came_from`, push it on the path and move to its stored
predecessor.  The accumulator is built head-first, so it equals the Python
list after its final `reverse()`.  The fuel only bounds the walk; every run
of the source loop that terminates is reproduced exactly when the fuel
exceeds the chain length, which the caller guarantees. -/
def reconstruct :
    Nat → List ((Option String × String) × (Option String × String)) →
    Option String × String → List (Option String × String) →
    List (Option String × String)
  | 0, _, _, acc => acc
  | fuel + 1, cameFrom, cur, acc =>
    match dlookup cameFrom cur with
    | none => acc
    | some prev => reconstruct fuel cameFrom prev (cur :: acc)

/-- The frontier loop of `shortest_path`: dequeue the front pair; if its
person is the target, reconstruct and return the path; otherwise expand its
neighbors.  Fuel `0` (`none`) is never reached from `shortest_path` on a
well-formed store, as proved below. -/
def bfsLoop (store : RecordStore) (target : String) :
    Nat → List (Option String × String) → List String →
    List ((Option String × String) × (Option String × String)) →
    Option SearchResult
  | 0, _, _, _ => none
  | _ + 1, [], _, _ => some SearchResult.exhausted
  | fuel + 1, (mid, pid) :: rest, explored, cameFrom =>
    if pid = target then
      some (SearchResult.found (reconstruct (cameFrom.length + 1) cameFrom (mid, pid) []))
    else
      match neighbors_for_person store pid with
      | none => some SearchResult.keyError
      | some nbrs =>
        bfsLoop store target fuel
          (expand pid nbrs rest explored cameFrom).1
          (expand pid nbrs rest explored cameFrom).2.1
          (expand pid nbrs rest explored cameFrom).2.2

/-- `shortest_path(source, target)`: frontier seeded with `(None, source)`,
`explored = {source}`, `came_from = {}`.  The fuel `|people| + 1` dominates
the number of loop iterations (each enqueued person is explored exactly
once), as proved below. -/
def shortest_path (store : RecordStore) (source target : String) :
    Option SearchResult :=
  bfsLoop store target (store.people.length + 1) [(none, source)] [source] []

/-! ### Concrete fixture stores -/

/-- Scenario B fixture: P1 and P2 share M1, P2 and P3 share M2, no movie
contains both P1 and P3.  Exactly the store `load_data` builds from the
corresponding rows. -/
def chainStore : RecordStore :=
  ⟨[("p1", ⟨"Alice", "1970", ["m1"]⟩),
    ("p2", ⟨"Bob", "1971", ["m1", "m2"]⟩),
    ("p3", ⟨"Carol", "1972", ["m2"]⟩)],
   [("m1", ⟨"Movie One", "1999", ["p1", "p2"]⟩),
    ("m2", ⟨"Movie Two", "2000", ["p2", "p3"]⟩)],
   [("alice", ["p1"]), ("bob", ["p2"]), ("carol", ["p3"])]⟩

/-- Fixture for the neighbor-ordering claim: person `p0` appeared in `m2`
before `m1` (star-row order), so the neighbor pairs enumerate as
`[("m2","q"), ("m1","r")]`. -/
def orderStore : RecordStore :=
  ⟨[("p0", ⟨"Pia", "1970", ["m2", "m1"]⟩),
    ("q", ⟨"Quinn", "1971", ["m2"]⟩),
    ("r", ⟨"Ray", "1972", ["m1"]⟩)],
   [("m1", ⟨"Alpha", "1999", ["p0", "r"]⟩),
    ("m2", ⟨"Beta", "2000", ["p0", "q"]⟩)],
   [("pia", ["p0"]), ("quinn", ["q"]), ("ray", ["r"])]⟩

/-- Fixture for name resolution: two people are both named "Pat". -/
def patStore : RecordStore :=
  ⟨[("p5", ⟨"Pat", "1960", []⟩), ("p6", ⟨"Pat", "1985", []⟩)],
   [],
   [("pat", ["p5", "p6"])]⟩

/-- Fixture for star-row loading: one known person and one known movie, no
links yet. -/
def smallStore : RecordStore :=
  ⟨[("p1", ⟨"Alice", "1970", []⟩)],
   [("m1", ⟨"Movie One", "1999", []⟩)],
   [("alice", ["p1"])]⟩

/-- Fixture for the disconnected-search claim: two people and no movies at
all, so the co-starring graph has no edges. -/
def twoIslandStore : RecordStore :=
  ⟨[("a", ⟨"Ann", "1970", []⟩), ("b", ⟨"Ben", "1971", []⟩)],
   [],
   [("ann", ["a"]), ("ben", ["b"])]⟩

/-- Lexicographic comparison of character lists by code point: the strict
string order underlying the (movieId, personId) sort key. -/
def charListLt : List Char → List Char → Bool
  | [], [] => false
  | [], _ :: _ => true
  | _ :: _, [] => false
  | a :: as, b :: bs => if a < b then true else if b < a then false else charListLt as bs

/-- Strict (movieId, personId) lexicographic order on neighbor pairs: the
order the spec asks sorting to canonicalize by. -/
def pairLt (a b : String × String) : Prop :=
  charListLt a.1.data b.1.data = true ∨ (a.1 = b.1 ∧ charListLt a.2.data b.2.data = true)

instance : DecidableRel pairLt := fun a b => by
  unfold pairLt
  infer_instance

/-- The mutual-consistency property of the data model: every movie id in a
person's movie set names a stored movie whose star set contains the person,
and every person id in a movie's star set names a stored person whose movie
set contains the movie. -/
def StoreConsistent (store : RecordStore) : Prop :=
  (∀ pid pe, dlookup store.people pid = some pe →
    ∀ mid ∈ pe.movies,
      ∃ me, dlookup store.movies mid = some me ∧ pid ∈ me.stars) ∧
  (∀ mid me, dlookup store.movies mid = some me →
    ∀ pid ∈ me.stars,
      ∃ pe, dlookup store.people pid = some pe ∧ mid ∈ pe.movies)

/-- The person identifiers of the store, in table order. -/
def pkeys (store : RecordStore) : List String :=
  store.people.map Prod.fst

/-- Well-formedness of a store as the search engine assumes it: person ids
are unique, every movie id mentioned by a person is stored, and every star
of a stored movie is a stored person. -/
def StoreWF (store : RecordStore) : Prop :=
  (pkeys store).Nodup ∧
  (∀ pe ∈ store.people, ∀ mid ∈ pe.2.movies,
    (dlookup store.movies mid).isSome = true) ∧
  (∀ me ∈ store.movies, ∀ sid ∈ me.2.stars, sid ∈ pkeys store)

instance (s : RecordStore) : Decidable (StoreWF s) := by
  unfold StoreWF pkeys
  infer_instance

/-- Number of stored person ids not yet explored: the part of the BFS
termination measure that shrinks when a person is first discovered. -/
def unexp (store : RecordStore) (explored : List String) : Nat :=
  ((pkeys store).filter (fun k => decide (k ∉ explored))).length

/-- One co-starring hop as the neighbor expander computes it: `q` occurs in
the neighbor set of `p`. -/
def coStep (store : RecordStore) (p q : String) : Prop :=
  ∃ nbrs, neighbors_for_person store p = some nbrs ∧ ∃ m, (m, q) ∈ nbrs

/-- Reachability in the co-starring graph: the reflexive-transitive closure
of single hops.  Two people lie in the same connected component exactly
when one is reachable from the other. -/
def Reachable (store : RecordStore) : String → String → Prop :=
  Relation.ReflTransGen (coStep store)

/-! ### Claim theorems: concrete behavior of the search -/

/-- Claim C1 (code bug): on the Scenario B chain the true graph distance
from p1 to p3 is at least two — no movie of the store contains both — yet
`shortest_path` returns a one-hop sequence, so the returned hop count does
not equal the graph distance.  The cause is the `for` loop rebinding
`movie_id`, which corrupts the `came_from` predecessor pairs and truncates
reconstruction. -/
theorem shortest_path_hop_count_bug :
    shortest_path chainStore "p1" "p3" =
      some (SearchResult.found [(some "m2", "p3")]) ∧
    (∀ me ∈ chainStore.movies, ¬ ("p1" ∈ me.2.stars ∧ "p3" ∈ me.2.stars)) := by
  decide

/-- Claim C2 (code bug): on the three-person chain P1–M1–P2–M2–P3 the code
returns the truncated sequence `[(M2, P3)]`, not the claimed two-hop
sequence `[(M1, P2), (M2, P3)]`. -/
theorem shortest_path_scenarioB_bug :
    shortest_path chainStore "p1" "p3" =
      some (SearchResult.found [(some "m2", "p3")]) ∧
    [((some "m2" : Option String), "p3")] ≠
      [((some "m1" : Option String), "p2"), (some "m2", "p3")] := by
  decide

/-- Claim C3 (code bug): the successful search on the Scenario B chain
returns `[(m2, p3)]`, whose first hop does not replay against the Record
Store: the source p1's movie set is `["m1"]` and the hop movie `m2` is not
a member of it, so the hop violates adjacency. -/
theorem shortest_path_replay_bug :
    shortest_path chainStore "p1" "p3" =
      some (SearchResult.found [(some "m2", "p3")]) ∧
    (dlookup chainStore.people "p1").map Person.movies = some ["m1"] ∧
    "m2" ∉ ["m1"] := by
  decide

/-- Claim C4 (counterexample): neighbor pairs are not canonicalized by
sorting by (movieId, personId) before use — for `orderStore` the neighbor
list of p0 as handed to the search engine is `[("m2","q"), ("m1","r")]`,
which is not sorted in that order. -/
theorem neighbors_not_sorted_cex :
    neighbors_for_person orderStore "p0" = some [("m2", "q"), ("m1", "r")] ∧
    ¬ List.Pairwise pairLt [("m2", "q"), ("m1", "r")] := by
  decide

/-- Claim C4 (amended): no sorting step exists; the search engine consumes
neighbor pairs in the underlying collection's iteration order, and there
are stores for which that order is not sorted by (movieId, personId). -/
theorem neighbors_unsorted_exists :
    ∃ (store : RecordStore) (pid : String) (nbrs : List (String × String)),
      neighbors_for_person store pid = some nbrs ∧
      ¬ List.Pairwise pairLt nbrs :=
  ⟨orderStore, "p0", [("m2", "q"), ("m1", "r")], by decide, by decide⟩

/-- Claim C5: for every store and person identifier, searching from a
person to itself returns the empty hop sequence, a result distinct from the
exhausted-frontier ("no path") outcome. -/
theorem shortest_path_self_empty (store : RecordStore) (p : String) :
    shortest_path store p p = some (SearchResult.found []) ∧
    SearchResult.found [] ≠ SearchResult.exhausted := by
  refine ⟨?_, by decide⟩
  simp [shortest_path, bfsLoop, reconstruct, dlookup]

/-- Claim C7 (counterexample): name resolution is not a pure query of the
name — with two people named "Pat", the result depends on the
interactively read response and is a single identifier, not the candidate
set. -/
theorem person_id_interactive_cex :
    person_id_for_name patStore "Pat" "p5" = some "p5" ∧
    person_id_for_name patStore "Pat" "p6" = some "p6" ∧
    (some "p5" : Option String) ≠ some "p6" := by
  decide

/-- Claim C7 (amended): `person_id_for_name` returns `none` for zero
matches, the unique identifier for exactly one match, and for several
matches consults the interactively read response: that response when it is
among the candidates, `none` otherwise — it never returns the candidate
set. -/
theorem person_id_for_name_characterization (store : RecordStore)
    (nm response : String) :
    ((dlookup store.names (strToLower nm)).getD [] = [] →
      person_id_for_name store nm response = none) ∧
    (∀ p, (dlookup store.names (strToLower nm)).getD [] = [p] →
      person_id_for_name store nm response = some p) ∧
    (1 < ((dlookup store.names (strToLower nm)).getD []).length →
      person_id_for_name store nm response =
        if response ∈ (dlookup store.names (strToLower nm)).getD [] then some response
        else none) := by
  refine ⟨fun h => ?_, fun p h => ?_, fun h => ?_⟩
  · simp [person_id_for_name, h]
  · simp [person_id_for_name, h]
  · have h0 : ¬ ((dlookup store.names (strToLower nm)).getD []).length = 0 := by omega
    simp [person_id_for_name, h0, h]

/-- Witness for the amended C7 theorem at the two-Pat fixture. -/
theorem person_id_for_name_characterization_witness :
    1 < ((dlookup patStore.names (strToLower "Pat")).getD []).length ∧
    person_id_for_name patStore "Pat" "p6" = some "p6" := by
  refine ⟨by decide, ?_⟩
  have h := (person_id_for_name_characterization patStore "Pat" "p6").2.2 (by decide)
  rw [h]
  decide

/-- Claim C8: a star row whose person identifier or movie identifier is
unknown leaves the store unchanged, and loading the remaining rows proceeds
exactly as if the row were absent. -/
theorem load_stars_skips_unknown (store : RecordStore) (pid mid : String)
    (rest : List (String × String))
    (h : dlookup store.people pid = none ∨ dlookup store.movies mid = none) :
    loadStarRow store (pid, mid) = store ∧
    load_stars store ((pid, mid) :: rest) = load_stars store rest := by
  have hstep : loadStarRow store (pid, mid) = store := by
    unfold loadStarRow
    rcases h with h | h <;> simp [h]
  exact ⟨hstep, by simp [load_stars, hstep]⟩

/-! ### Association-list and set helper lemmas -/

theorem mem_setAdd_iff {α : Type} [DecidableEq α] {s : List α} {x y : α} :
    y ∈ setAdd s x ↔ y ∈ s ∨ y = x := by
  unfold setAdd
  by_cases hx : x ∈ s
  · rw [if_pos hx]
    constructor
    · exact Or.inl
    · rintro (h | rfl)
      · exact h
      · exact hx
  · rw [if_neg hx]
    simp

theorem self_mem_setAdd {α : Type} [DecidableEq α] (s : List α) (x : α) :
    x ∈ setAdd s x := by
  rw [mem_setAdd_iff]
  exact Or.inr rfl

theorem mem_setAdd_of_mem {α : Type} [DecidableEq α] {s : List α} {y : α} (x : α)
    (h : y ∈ s) : y ∈ setAdd s x := by
  rw [mem_setAdd_iff]
  exact Or.inl h

theorem dlookup_mem {α β : Type} [DecidableEq α] :
    ∀ {l : List (α × β)} {k : α} {v : β}, dlookup l k = some v → (k, v) ∈ l := by
  intro l
  induction l with
  | nil => intro k v h; simp [dlookup] at h
  | cons e rest ih =>
    intro k v h
    obtain ⟨a, b⟩ := e
    by_cases hk : k = a
    · subst hk
      rw [dlookup, if_pos rfl] at h
      injection h with h
      subst h
      exact List.mem_cons_self _ _
    · rw [dlookup, if_neg hk] at h
      exact List.mem_cons_of_mem _ (ih h)

theorem mem_dictInsert {α β : Type} [DecidableEq α] {d : List (α × β)} {k : α}
    {v : β} {e : α × β} (h : e ∈ dictInsert d k v) : e ∈ d ∨ e = (k, v) := by
  unfold dictInsert at h
  split at h
  · obtain ⟨x, hx, hxe⟩ := List.mem_map.mp h
    by_cases hxk : x.1 = k
    · rw [if_pos hxk] at hxe
      right
      exact hxe.symm
    · rw [if_neg hxk] at hxe
      left
      exact hxe ▸ hx
  · rw [List.mem_append] at h
    rcases h with h | h
    · left
      exact h
    · right
      simpa using h

theorem dlookup_mapEntries {α β : Type} [DecidableEq α] (f : α → β → β) :
    ∀ (l : List (α × β)) (q : α),
      dlookup (l.map fun e => (e.1, f e.1 e.2)) q = (dlookup l q).map (f q) := by
  intro l
  induction l with
  | nil => intro q; rfl
  | cons e rest ih =>
    intro q
    obtain ⟨a, b⟩ := e
    by_cases hqa : q = a
    · subst hqa
      simp [dlookup, ih]
    · simp [dlookup, hqa, ih]

theorem addMovieToPerson_eq (ps : List (String × Person)) (pid mid : String) :
    addMovieToPerson ps pid mid =
      ps.map fun e =>
        (e.1, if e.1 = pid then
          (⟨e.2.name, e.2.birth, setAdd e.2.movies mid⟩ : Person) else e.2) := by
  unfold addMovieToPerson
  congr 1
  funext e
  by_cases h : e.1 = pid <;> simp [h]

theorem addStarToMovie_eq (ms : List (String × Movie)) (mid pid : String) :
    addStarToMovie ms mid pid =
      ms.map fun e =>
        (e.1, if e.1 = mid then
          (⟨e.2.title, e.2.year, setAdd e.2.stars pid⟩ : Movie) else e.2) := by
  unfold addStarToMovie
  congr 1
  funext e
  by_cases h : e.1 = mid <;> simp [h]

theorem dlookup_addMovieToPerson (ps : List (String × Person)) (pid mid q : String) :
    dlookup (addMovieToPerson ps pid mid) q =
      if q = pid then
        (dlookup ps q).map fun pr => ⟨pr.name, pr.birth, setAdd pr.movies mid⟩
      else dlookup ps q := by
  rw [addMovieToPerson_eq,
    dlookup_mapEntries
      (fun k pr =>
        if k = pid then (⟨pr.name, pr.birth, setAdd pr.movies mid⟩ : Person) else pr)]
  by_cases h : q = pid <;> cases hd : dlookup ps q <;> simp [h, hd]

theorem dlookup_addStarToMovie (ms : List (String × Movie)) (mid pid q : String) :
    dlookup (addStarToMovie ms mid pid) q =
      if q = mid then
        (dlookup ms q).map fun mv => ⟨mv.title, mv.year, setAdd mv.stars pid⟩
      else dlookup ms q := by
  rw [addStarToMovie_eq,
    dlookup_mapEntries
      (fun k mv =>
        if k = mid then (⟨mv.title, mv.year, setAdd mv.stars pid⟩ : Movie) else mv)]
  by_cases h : q = mid <;> cases hd : dlookup ms q <;> simp [h, hd]

/-! ### Consistency of the loaded store (claim C9) -/

theorem consistent_loadStarRow {s : RecordStore} (h : StoreConsistent s)
    (row : String × String) : StoreConsistent (loadStarRow s row) := by
  obtain ⟨h1, h2⟩ := h
  obtain ⟨pid, mid⟩ := row
  unfold loadStarRow
  split
  case isFalse => exact ⟨h1, h2⟩
  case isTrue hcond =>
    rw [Bool.and_eq_true, Option.isSome_iff_exists, Option.isSome_iff_exists] at hcond
    obtain ⟨⟨p0, hp⟩, ⟨m0, hm⟩⟩ := hcond
    constructor
    · intro qid pe hlook mid2 hmid2
      simp only at hlook hmid2 ⊢
      rw [dlookup_addMovieToPerson] at hlook
      by_cases hq : qid = pid
      · subst hq
        rw [if_pos rfl, hp] at hlook
        injection hlook with hlook
        subst hlook
        rw [show Person.movies ⟨p0.name, p0.birth, setAdd p0.movies mid⟩ =
              setAdd p0.movies mid from rfl, mem_setAdd_iff] at hmid2
        rcases hmid2 with hold | rfl
        · obtain ⟨me, hme, hstar⟩ := h1 qid p0 hp mid2 hold
          rw [dlookup_addStarToMovie]
          by_cases hm2 : mid2 = mid
          · subst hm2
            rw [if_pos rfl, hme]
            exact ⟨_, rfl, mem_setAdd_of_mem _ hstar⟩
          · rw [if_neg hm2]
            exact ⟨me, hme, hstar⟩
        · rw [dlookup_addStarToMovie, if_pos rfl, hm]
          exact ⟨_, rfl, self_mem_setAdd _ _⟩
      · rw [if_neg hq] at hlook
        obtain ⟨me, hme, hstar⟩ := h1 qid pe hlook mid2 hmid2
        rw [dlookup_addStarToMovie]
        by_cases hm2 : mid2 = mid
        · subst hm2
          rw [if_pos rfl, hme]
          exact ⟨_, rfl, mem_setAdd_of_mem _ hstar⟩
        · rw [if_neg hm2]
          exact ⟨me, hme, hstar⟩
    · intro mid2 me hlook qid hqid
      simp only at hlook hqid ⊢
      rw [dlookup_addStarToMovie] at hlook
      by_cases hm2 : mid2 = mid
      · subst hm2
        rw [if_pos rfl, hm] at hlook
        injection hlook with hlook
        subst hlook
        rw [show Movie.stars ⟨m0.title, m0.year, setAdd m0.stars pid⟩ =
              setAdd m0.stars pid from rfl, mem_setAdd_iff] at hqid
        rcases hqid with hold | rfl
        · obtain ⟨pe, hpe, hmov⟩ := h2 mid2 m0 hm qid hold
          rw [dlookup_addMovieToPerson]
          by_cases hq : qid = pid
          · subst hq
            rw [if_pos rfl, hpe]
            exact ⟨_, rfl, mem_setAdd_of_mem _ hmov⟩
          · rw [if_neg hq]
            exact ⟨pe, hpe, hmov⟩
        · rw [dlookup_addMovieToPerson, if_pos rfl, hp]
          exact ⟨_, rfl, self_mem_setAdd _ _⟩
      · rw [if_neg hm2] at hlook
        obtain ⟨pe, hpe, hmov⟩ := h2 mid2 me hlook qid hqid
        rw [dlookup_addMovieToPerson]
        by_cases hq : qid = pid
        · subst hq
          rw [if_pos rfl, hpe]
          exact ⟨_, rfl, mem_setAdd_of_mem _ hmov⟩
        · rw [if_neg hq]
          exact ⟨pe, hpe, hmov⟩

theorem consistent_load_stars :
    ∀ (rows : List (String × String)) (s : RecordStore), StoreConsistent s →
      StoreConsistent (load_stars s rows) := by
  intro rows
  induction rows with
  | nil => intro s h; exact h
  | cons r rest ih =>
    intro s h
    exact ih (loadStarRow s r) (consistent_loadStarRow h r)

theorem load_people_movies_eq (rows : List (String × String × String)) :
    ∀ s : RecordStore, (load_people s rows).movies = s.movies := by
  induction rows with
  | nil => intro s; rfl
  | cons r rest ih =>
    intro s
    have hstep : load_people s (r :: rest) = load_people (loadPersonRow s r) rest := rfl
    rw [hstep, ih]
    rfl

theorem load_movies_people_eq (rows : List (String × String × String)) :
    ∀ s : RecordStore, (load_movies s rows).people = s.people := by
  induction rows with
  | nil => intro s; rfl
  | cons r rest ih =>
    intro s
    have hstep : load_movies s (r :: rest) = load_movies (loadMovieRow s r) rest := rfl
    rw [hstep, ih]
    rfl

theorem load_people_people_empty (rows : List (String × String × String)) :
    ∀ s : RecordStore, (∀ pe ∈ s.people, pe.2.movies = []) →
      ∀ pe ∈ (load_people s rows).people, pe.2.movies = [] := by
  induction rows with
  | nil => intro s h; exact h
  | cons r rest ih =>
    intro s h
    have hstep : ∀ pe ∈ (loadPersonRow s r).people, pe.2.movies = [] := by
      intro pe hpe
      rcases mem_dictInsert hpe with hold | rfl
      · exact h pe hold
      · rfl
    exact ih (loadPersonRow s r) hstep

theorem load_movies_movies_empty (rows : List (String × String × String)) :
    ∀ s : RecordStore, (∀ me ∈ s.movies, me.2.stars = []) →
      ∀ me ∈ (load_movies s rows).movies, me.2.stars = [] := by
  induction rows with
  | nil => intro s h; exact h
  | cons r rest ih =>
    intro s h
    have hstep : ∀ me ∈ (loadMovieRow s r).movies, me.2.stars = [] := by
      intro me hme
      rcases mem_dictInsert hme with hold | rfl
      · exact h me hold
      · rfl
    exact ih (loadMovieRow s r) hstep

theorem consistent_of_empty {s : RecordStore}
    (hp : ∀ pe ∈ s.people, pe.2.movies = [])
    (hm : ∀ me ∈ s.movies, me.2.stars = []) : StoreConsistent s := by
  constructor
  · intro pid pe hlook mid hmid
    have hz := hp (pid, pe) (dlookup_mem hlook)
    rw [show ((pid, pe) : String × Person).2.movies = pe.movies from rfl] at hz
    rw [hz] at hmid
    cases hmid
  · intro mid me hlook pid hpid
    have hz := hm (mid, me) (dlookup_mem hlook)
    rw [show ((mid, me) : String × Movie).2.stars = me.stars from rfl] at hz
    rw [hz] at hpid
    cases hpid

/-- Claim C9: the store built by `load_data` is mutually consistent — a
movie id lies in a person's movie set exactly when the person id lies in
that movie's star set, and every id so referenced names a stored entity,
because the star-loading step only ever records a link as a matched pair. -/
theorem load_data_consistent (peopleRows movieRows : List (String × String × String))
    (starRows : List (String × String)) :
    StoreConsistent (load_data peopleRows movieRows starRows) := by
  apply consistent_load_stars
  apply consistent_of_empty
  · rw [load_movies_people_eq]
    apply load_people_people_empty
    intro pe hpe
    cases hpe
  · apply load_movies_movies_empty
    intro me hme
    rw [load_people_movies_eq] at hme
    cases hme

/-! ### Termination and exhaustion of the frontier loop (claims C10 and C6) -/

theorem exists_dlookup_of_mem_keys {α β : Type} [DecidableEq α] :
    ∀ {l : List (α × β)} {k : α}, k ∈ l.map Prod.fst → ∃ v, dlookup l k = some v := by
  intro l
  induction l with
  | nil => intro k h; simp at h
  | cons e rest ih =>
    intro k h
    obtain ⟨a, b⟩ := e
    by_cases hk : k = a
    · exact ⟨b, by rw [dlookup, if_pos hk]⟩
    · simp only [List.map_cons, List.mem_cons] at h
      rcases h with h | h
      · exact absurd h hk
      · obtain ⟨v, hv⟩ := ih h
        exact ⟨v, by rw [dlookup, if_neg hk]; exact hv⟩

theorem foldl_setAdd_mem (pid mid : String) :
    ∀ (stars : List String) (acc : List (String × String)) (x : String × String),
      x ∈ stars.foldl
        (fun a nid => if nid = pid then a else setAdd a (mid, nid)) acc →
      x ∈ acc ∨ (x.1 = mid ∧ x.2 ∈ stars) := by
  intro stars
  induction stars with
  | nil => intro acc x h; exact Or.inl h
  | cons s rest ih =>
    intro acc x h
    rw [List.foldl_cons] at h
    by_cases hs : s = pid
    · rw [if_pos hs] at h
      rcases ih acc x h with h2 | ⟨h2, h3⟩
      · exact Or.inl h2
      · exact Or.inr ⟨h2, List.mem_cons_of_mem _ h3⟩
    · rw [if_neg hs] at h
      rcases ih _ x h with h2 | ⟨h2, h3⟩
      · rcases mem_setAdd_iff.mp h2 with h3 | rfl
        · exact Or.inl h3
        · exact Or.inr ⟨rfl, List.mem_cons_self _ _⟩
      · exact Or.inr ⟨h2, List.mem_cons_of_mem _ h3⟩

theorem neighborsAux_wf (store : RecordStore)
    (hwf3 : ∀ me ∈ store.movies, ∀ sid ∈ me.2.stars, sid ∈ pkeys store)
    (pid : String) :
    ∀ (mids : List String) (acc : List (String × String)),
      (∀ mid ∈ mids, (dlookup store.movies mid).isSome = true) →
      (∀ x ∈ acc, x.2 ∈ pkeys store) →
      ∃ out, neighborsAux store pid mids acc = some out ∧
        ∀ x ∈ out, x.2 ∈ pkeys store := by
  intro mids
  induction mids with
  | nil => intro acc _ hacc; exact ⟨acc, rfl, hacc⟩
  | cons mid rest ih =>
    intro acc hmids hacc
    obtain ⟨mv, hmv⟩ := Option.isSome_iff_exists.mp
      (hmids mid (List.mem_cons_self _ _))
    have hstep : neighborsAux store pid (mid :: rest) acc =
        neighborsAux store pid rest
          (mv.stars.foldl
            (fun a nid => if nid = pid then a else setAdd a (mid, nid)) acc) := by
      simp only [neighborsAux, hmv]
    rw [hstep]
    apply ih
    · intro m hm
      exact hmids m (List.mem_cons_of_mem _ hm)
    · intro x hx
      rcases foldl_setAdd_mem pid mid mv.stars acc x hx with h | ⟨_, h2⟩
      · exact hacc x h
      · exact hwf3 (mid, mv) (dlookup_mem hmv) x.2 h2

theorem neighbors_for_person_wf {store : RecordStore} (hwf : StoreWF store)
    {pid : String} (hp : pid ∈ pkeys store) :
    ∃ nbrs, neighbors_for_person store pid = some nbrs ∧
      ∀ x ∈ nbrs, x.2 ∈ pkeys store := by
  obtain ⟨hnd, hwf2, hwf3⟩ := hwf
  obtain ⟨pe, hpe⟩ :=
    exists_dlookup_of_mem_keys (show pid ∈ store.people.map Prod.fst from hp)
  have hmids : ∀ mid ∈ pe.movies, (dlookup store.movies mid).isSome = true :=
    fun mid hm => hwf2 (pid, pe) (dlookup_mem hpe) mid hm
  obtain ⟨out, hout, hmem⟩ :=
    neighborsAux_wf store hwf3 pid pe.movies [] hmids (by intro x hx; cases hx)
  refine ⟨out, ?_, hmem⟩
  simp only [neighbors_for_person, hpe]
  exact hout

theorem filter_length_lt {α : Type} (p : α → Bool) :
    ∀ (l : List α) (a : α), a ∈ l → p a = false →
      (l.filter p).length < l.length := by
  intro l
  induction l with
  | nil => intro a ha; cases ha
  | cons b rest ih =>
    intro a ha hpa
    rw [List.filter_cons]
    rcases List.mem_cons.mp ha with rfl | ha2
    · rw [hpa]
      simp only [List.length_cons]
      exact Nat.lt_succ_of_le (List.length_filter_le _ _)
    · by_cases hb : p b = true
      · rw [if_pos hb]
        simp only [List.length_cons]
        exact Nat.succ_lt_succ (ih a ha2 hpa)
      · rw [if_neg hb]
        simp only [List.length_cons]
        exact Nat.lt_succ_of_lt (ih a ha2 hpa)

theorem filter_unexplored_append {α : Type} [DecidableEq α] :
    ∀ (l : List α), l.Nodup → ∀ (e : List α) (a : α), a ∈ l → a ∉ e →
      (l.filter (fun k => decide (k ∉ e ++ [a]))).length + 1 =
      (l.filter (fun k => decide (k ∉ e))).length := by
  intro l
  induction l with
  | nil => intro _ e a ha; cases ha
  | cons b rest ih =>
    intro hnd e a ha hae
    have hnd2 := List.nodup_cons.mp hnd
    rw [List.filter_cons, List.filter_cons]
    rcases List.mem_cons.mp ha with rfl | ha2
    · have h1 : ¬ (decide (a ∉ e ++ [a]) = true) := by simp
      have h2 : decide (a ∉ e) = true := by simpa using hae
      rw [if_neg h1, if_pos h2]
      have hcongr : rest.filter (fun k => decide (k ∉ e ++ [a])) =
          rest.filter (fun k => decide (k ∉ e)) := by
        apply List.filter_congr
        intro k hk
        have hka : ¬ k = a := fun hh => hnd2.1 (hh ▸ hk)
        rw [decide_eq_decide]
        simp [List.mem_append, hka]
      rw [hcongr, List.length_cons]
    · have hba : ¬ b = a := fun h => hnd2.1 (h ▸ ha2)
      have hsame : decide (b ∉ e ++ [a]) = decide (b ∉ e) := by
        rw [decide_eq_decide]
        simp [List.mem_append, hba]
      rw [hsame]
      by_cases hbe : decide (b ∉ e) = true
      · rw [if_pos hbe, if_pos hbe]
        simp only [List.length_cons]
        rw [← ih hnd2.2 e a ha2 hae]
      · rw [if_neg hbe, if_neg hbe]
        exact ih hnd2.2 e a ha2 hae

theorem unexp_append {store : RecordStore} (hnd : (pkeys store).Nodup)
    {explored : List String} {nid : String} (hmem : nid ∈ pkeys store)
    (hnew : nid ∉ explored) :
    unexp store (explored ++ [nid]) + 1 = unexp store explored := by
  unfold unexp
  exact filter_unexplored_append (pkeys store) hnd explored nid hmem hnew

theorem expand_measure (store : RecordStore) (hnd : (pkeys store).Nodup)
    (pid : String) :
    ∀ (nbrs : List (String × String)) (frontier : List (Option String × String))
      (explored : List String)
      (cameFrom : List ((Option String × String) × (Option String × String))),
      (∀ x ∈ nbrs, x.2 ∈ pkeys store) →
      unexp store (expand pid nbrs frontier explored cameFrom).2.1 +
        (expand pid nbrs frontier explored cameFrom).1.length =
      unexp store explored + frontier.length := by
  intro nbrs
  induction nbrs with
  | nil => intro frontier explored cameFrom _; rfl
  | cons x rest ih =>
    intro frontier explored cameFrom h
    obtain ⟨mid, nid⟩ := x
    by_cases he : nid ∈ explored
    · rw [show expand pid ((mid, nid) :: rest) frontier explored cameFrom =
          expand pid rest frontier explored cameFrom by
        simp only [expand]; rw [if_pos he]]
      exact ih frontier explored cameFrom
        (fun y hy => h y (List.mem_cons_of_mem _ hy))
    · rw [show expand pid ((mid, nid) :: rest) frontier explored cameFrom =
          expand pid rest (frontier ++ [(some mid, nid)]) (explored ++ [nid])
            (cameFrom ++ [((some mid, nid), (some mid, pid))]) by
        simp only [expand]; rw [if_neg he]]
      have hrec := ih (frontier ++ [(some mid, nid)]) (explored ++ [nid])
        (cameFrom ++ [((some mid, nid), (some mid, pid))])
        (fun y hy => h y (List.mem_cons_of_mem _ hy))
      have hmemn : nid ∈ pkeys store := h (mid, nid) (List.mem_cons_self _ _)
      have hstep := unexp_append hnd hmemn he
      have hlen : (frontier ++ [((some mid : Option String), nid)]).length =
          frontier.length + 1 := by simp
      omega

theorem expand_mem (pid : String) :
    ∀ (nbrs : List (String × String)) (frontier : List (Option String × String))
      (explored : List String)
      (cameFrom : List ((Option String × String) × (Option String × String))),
      ∀ y ∈ (expand pid nbrs frontier explored cameFrom).1,
        y ∈ frontier ∨ ∃ x ∈ nbrs, y = (some x.1, x.2) := by
  intro nbrs
  induction nbrs with
  | nil => intro frontier explored cameFrom y hy; exact Or.inl hy
  | cons x rest ih =>
    intro frontier explored cameFrom y hy
    obtain ⟨mid, nid⟩ := x
    by_cases he : nid ∈ explored
    · rw [show expand pid ((mid, nid) :: rest) frontier explored cameFrom =
          expand pid rest frontier explored cameFrom by
        simp only [expand]; rw [if_pos he]] at hy
      rcases ih frontier explored cameFrom y hy with h | ⟨x2, hx2, he2⟩
      · exact Or.inl h
      · exact Or.inr ⟨x2, List.mem_cons_of_mem _ hx2, he2⟩
    · rw [show expand pid ((mid, nid) :: rest) frontier explored cameFrom =
          expand pid rest (frontier ++ [(some mid, nid)]) (explored ++ [nid])
            (cameFrom ++ [((some mid, nid), (some mid, pid))]) by
        simp only [expand]; rw [if_neg he]] at hy
      rcases ih _ _ _ y hy with h | ⟨x2, hx2, he2⟩
      · rcases List.mem_append.mp h with h2 | h2
        · exact Or.inl h2
        · refine Or.inr ⟨(mid, nid), List.mem_cons_self _ _, ?_⟩
          simpa using h2
      · exact Or.inr ⟨x2, List.mem_cons_of_mem _ hx2, he2⟩

theorem bfsLoop_total (store : RecordStore) (source target : String)
    (hwf : StoreWF store) :
    ∀ (fuel : Nat) (frontier : List (Option String × String))
      (explored : List String)
      (cameFrom : List ((Option String × String) × (Option String × String))),
      (∀ y ∈ frontier, y.2 ∈ pkeys store) →
      unexp store explored + frontier.length < fuel →
      ∃ r, bfsLoop store target fuel frontier explored cameFrom = some r ∧
        r ≠ SearchResult.keyError ∧
        (¬ Reachable store source target →
          (∀ y ∈ frontier, Reachable store source y.2) →
          r = SearchResult.exhausted) := by
  intro fuel
  induction fuel with
  | zero => intro frontier explored cameFrom _ hlt; omega
  | succ fuel ih =>
    intro frontier explored cameFrom hfr hlt
    cases frontier with
    | nil => exact ⟨SearchResult.exhausted, rfl, by decide, fun _ _ => rfl⟩
    | cons y rest =>
      obtain ⟨mid, pid⟩ := y
      by_cases ht : pid = target
      · refine ⟨SearchResult.found
          (reconstruct (cameFrom.length + 1) cameFrom (mid, pid) []), ?_, by simp, ?_⟩
        · simp only [bfsLoop]
          rw [if_pos ht]
        · intro hnr hreach
          exact absurd (ht ▸ hreach (mid, pid) (List.mem_cons_self _ _)) hnr
      · have hpidp : pid ∈ pkeys store := hfr (mid, pid) (List.mem_cons_self _ _)
        obtain ⟨nbrs, hnbrs, hnbrsP⟩ := neighbors_for_person_wf hwf hpidp
        have heq : bfsLoop store target (fuel + 1) ((mid, pid) :: rest)
            explored cameFrom =
            bfsLoop store target fuel (expand pid nbrs rest explored cameFrom).1
              (expand pid nbrs rest explored cameFrom).2.1
              (expand pid nbrs rest explored cameFrom).2.2 := by
          simp only [bfsLoop]
          rw [if_neg ht, hnbrs]
        have hfr2 : ∀ y ∈ (expand pid nbrs rest explored cameFrom).1,
            y.2 ∈ pkeys store := by
          intro y hy
          rcases expand_mem pid nbrs rest explored cameFrom y hy with h | ⟨x, hx, rfl⟩
          · exact hfr y (List.mem_cons_of_mem _ h)
          · exact hnbrsP x hx
        have hlt2 : unexp store (expand pid nbrs rest explored cameFrom).2.1 +
            (expand pid nbrs rest explored cameFrom).1.length < fuel := by
          have hme := expand_measure store hwf.1 pid nbrs rest explored cameFrom hnbrsP
          simp only [List.length_cons] at hlt
          omega
        obtain ⟨r, hr, hrk, hrx⟩ := ih _ _ _ hfr2 hlt2
        refine ⟨r, by rw [heq]; exact hr, hrk, ?_⟩
        intro hnr hreach
        apply hrx hnr
        intro y hy
        rcases expand_mem pid nbrs rest explored cameFrom y hy with h | ⟨x, hx, rfl⟩
        · exact hreach y (List.mem_cons_of_mem _ h)
        · exact Relation.ReflTransGen.tail
            (hreach (mid, pid) (List.mem_cons_self _ _))
            ⟨nbrs, hnbrs, x.1, by simpa using hx⟩

/-- Claim C10: on a well-formed store, a search between stored identifiers
runs to completion — the frontier loop reaches the Found or the Exhausted
outcome within the `|people| + 1` iteration budget, because every person is
enqueued at most once (it is marked explored at first discovery). -/
theorem shortest_path_terminates (store : RecordStore) (source target : String)
    (hwf : StoreWF store) (hs : source ∈ pkeys store) :
    (∃ path, shortest_path store source target = some (SearchResult.found path)) ∨
    shortest_path store source target = some SearchResult.exhausted := by
  have hsrc : decide (source ∉ [source]) = false := by simp
  have hlt : unexp store [source] + 1 < store.people.length + 1 := by
    have h1 : unexp store [source] < (pkeys store).length :=
      filter_length_lt _ (pkeys store) source hs hsrc
    have h2 : (pkeys store).length = store.people.length := List.length_map _ _
    omega
  obtain ⟨r, hr, hrk, _⟩ := bfsLoop_total store source target hwf
    (store.people.length + 1) [(none, source)] [source] []
    (by
      intro y hy
      rcases List.mem_singleton.mp hy with rfl
      exact hs)
    (by simpa using hlt)
  cases r with
  | found p => exact Or.inl ⟨p, hr⟩
  | exhausted => exact Or.inr hr
  | keyError => exact absurd rfl hrk

theorem rtg_eq_of_no_step {α : Type} {r : α → α → Prop} (hr : ∀ a b, ¬ r a b) :
    ∀ {a b : α}, Relation.ReflTransGen r a b → a = b := by
  intro a b h
  induction h with
  | refl => rfl
  | tail _ h2 _ => exact absurd h2 (hr _ _)

/-- Claim C6: on a well-formed store, searching from a stored person to a
person it cannot reach — the two lie in different connected components —
exhausts the frontier and returns the distinct "no path" outcome (the
embedding of `return None`); in particular no exception outcome occurs. -/
theorem shortest_path_disconnected_exhausted (store : RecordStore)
    (source target : String) (hwf : StoreWF store) (hs : source ∈ pkeys store)
    (hnr : ¬ Reachable store source target) :
    shortest_path store source target = some SearchResult.exhausted := by
  have hsrc : decide (source ∉ [source]) = false := by simp
  have hlt : unexp store [source] + 1 < store.people.length + 1 := by
    have h1 : unexp store [source] < (pkeys store).length :=
      filter_length_lt _ (pkeys store) source hs hsrc
    have h2 : (pkeys store).length = store.people.length := List.length_map _ _
    omega
  obtain ⟨r, hr, _, hrx⟩ := bfsLoop_total store source target hwf
    (store.people.length + 1) [(none, source)] [source] []
    (by
      intro y hy
      rcases List.mem_singleton.mp hy with rfl
      exact hs)
    (by simpa using hlt)
  have hex : r = SearchResult.exhausted := by
    apply hrx hnr
    intro y hy
    rcases List.mem_singleton.mp hy with rfl
    exact Relation.ReflTransGen.refl
  rw [← hex]
  exact hr

theorem twoIsland_no_step : ∀ p q, ¬ coStep twoIslandStore p q := by
  rintro p q ⟨nbrs, hn, m, hm⟩
  unfold neighbors_for_person at hn
  rcases hd : dlookup twoIslandStore.people p with _ | pe
  · rw [hd] at hn
    cases hn
  · rw [hd] at hn
    have hn3 : neighborsAux twoIslandStore p pe.movies [] = some nbrs := hn
    have hpe : pe.movies = [] := by
      have hmem := dlookup_mem hd
      simp only [twoIslandStore, List.mem_cons, List.mem_singleton,
        List.not_mem_nil, or_false, Prod.mk.injEq] at hmem
      rcases hmem with ⟨_, rfl⟩ | ⟨_, rfl⟩ <;> rfl
    rw [hpe] at hn3
    have hn2 : some ([] : List (String × String)) = some nbrs := hn3
    injection hn2 with hn2
    rw [← hn2] at hm
    cases hm

/-- Witness for C6 at the two-island fixture: p "a" and "b" share no movie
(there are none), so they are in different components and the search is
exhausted. -/
theorem shortest_path_disconnected_exhausted_witness :
    StoreWF twoIslandStore ∧ "a" ∈ pkeys twoIslandStore ∧
    shortest_path twoIslandStore "a" "b" = some SearchResult.exhausted := by
  refine ⟨by decide, by decide, ?_⟩
  apply shortest_path_disconnected_exhausted twoIslandStore "a" "b"
    (by decide) (by decide)
  intro h
  have := rtg_eq_of_no_step twoIsland_no_step h
  simp at this

/-- Witness for C10 at the Scenario B fixture. -/
theorem shortest_path_terminates_witness :
    StoreWF chainStore ∧ "p1" ∈ pkeys chainStore ∧
    ((∃ path, shortest_path chainStore "p1" "p3" =
        some (SearchResult.found path)) ∨
      shortest_path chainStore "p1" "p3" = some SearchResult.exhausted) := by
  refine ⟨by decide, by decide, ?_⟩
  exact shortest_path_terminates chainStore "p1" "p3" (by decide) (by decide)

/-- Witness for C8: the row ("ghost", "m1") references an unknown person
and is dropped. -/
theorem load_stars_skips_unknown_witness :
    (dlookup smallStore.people "ghost" = none ∨
      dlookup smallStore.movies "m1" = none) ∧
    loadStarRow smallStore ("ghost", "m1") = smallStore ∧
    load_stars smallStore [("ghost", "m1")] = load_stars smallStore [] := by
  refine ⟨Or.inl (by decide), ?_⟩
  exact load_stars_skips_unknown smallStore "ghost" "m1" [] (Or.inl (by decide))

end Degrees
